import Mathlib

/-!
# Token store over a lease-capable key-value store (etcd.go)

A shallow embedding of `etcd.go`: the `TokenStore` methods are functions that
take the client state explicitly and return the call's result together with
the state afterwards.

* `Etcd` is the state of the backing store as seen through one client: the
  key space, the granted leases, and a schedule of injected call failures.
* `Codec` stands for the package variables `jsonMarshal` / `jsonUnmarshal`.
* `Token` stands for `models.Token`; a `nil` `oauth2.TokenInfo` is `none`.
* `time.Duration` is an integer count of nanoseconds, so `int64(d)` is `d`.
-/

namespace EtcdStore

/-! ## Collaborators -/

/-- Errors a call can come back with. -/
inductive Err where
  /-- the store or the transport reported a failure (tagged for identification) -/
  | store (tag : Nat)
  /-- the store refused a lease whose time-to-live is not positive -/
  | invalidTTL
  /-- the codec could not encode or decode (tagged for identification) -/
  | codec (tag : Nat)
  deriving DecidableEq, Repr

/-- A `time.Duration`: a signed count of nanoseconds. -/
abbrev Duration := Int

/-- One second, `time.Second`. -/
def Second : Duration := 1000000000

/-- The fields of `models.Token` (times are nanoseconds since the epoch). -/
structure Token where
  ClientID : String := ""
  UserID : String := ""
  RedirectURI : String := ""
  Scope : String := ""
  Code : String := ""
  CodeCreateAt : Int := 0
  CodeExpiresIn : Duration := 0
  Access : String := ""
  AccessCreateAt : Int := 0
  AccessExpiresIn : Duration := 0
  Refresh : String := ""
  RefreshCreateAt : Int := 0
  RefreshExpiresIn : Duration := 0
  deriving DecidableEq, Repr

/-- The pair `jsonMarshal` / `jsonUnmarshal`. -/
structure Codec where
  encode : Token → Except Err String
  decode : String → Except Err Token

/-- The text of `uuid.Must(uuid.NewRandom()).String()`: the canonical form of
a UUID, which always has 36 characters. -/
structure UUIDString where
  text : String
  len : text.length = 36

/-- A stored key's value and the lease it is attached to, if any. -/
structure KeyValue where
  Value : String
  Lease : Option Nat
  deriving DecidableEq, Repr

/-- The answer to a single-key `Get`: the key-value pairs found. -/
structure GetResponse where
  Kvs : List KeyValue
  deriving DecidableEq, Repr

/-- The `Count` of a response: how many keys matched. -/
def GetResponse.Count (res : GetResponse) : Nat := res.Kvs.length

/-- The answer to `Grant`: the identifier of the new lease. -/
structure LeaseGrantResponse where
  ID : Nat
  deriving DecidableEq, Repr

/-- A put operation of a transaction, `clientv3.OpPut(key, val, opts...)`. -/
structure Op where
  key : String
  val : String
  lease : Option Nat
  deriving DecidableEq, Repr

/-- The backing store as one client sees it.

`kvs` is the key space, `leases` the time-to-live (the integer handed to
`Grant`) of every lease granted so far, `nextLease` the next lease
identifier. `faults` schedules failures: the `n`-th call made through the
client fails with `e` when `faults n = some e`, and `calls` counts the calls
made so far. No time passes between calls, so no lease expires. -/
structure Etcd where
  kvs : String → Option KeyValue
  leases : Nat → Option Int
  nextLease : Nat
  faults : Nat → Option Err
  calls : Nat

/-- The failure scheduled for the call about to be made. -/
def Etcd.fault (cli : Etcd) : Option Err := cli.faults cli.calls

/-- Count one more call. -/
def Etcd.tick (cli : Etcd) : Etcd := { cli with calls := cli.calls + 1 }

/-- Modelled from the spec: the store's `Get(key) -> (value, exists)`, which
returns an error on failure. This is the client call `Get(ctx, key)`. -/
def Etcd.Get (cli : Etcd) (key : String) : Except Err GetResponse × Etcd :=
  match cli.fault with
  | some e => (.error e, cli.tick)
  | none => (.ok ⟨(cli.kvs key).toList⟩, cli.tick)

/-- Modelled from the spec: the store's `Put(key, value, [lease])`, which
returns an error on failure. This is the client call
`Put(ctx, key, val, opts...)`. -/
def Etcd.Put (cli : Etcd) (key val : String) (lease : Option Nat) : Except Err Unit × Etcd :=
  match cli.fault with
  | some e => (.error e, cli.tick)
  | none => (.ok (), { cli.tick with kvs := Function.update cli.kvs key (some ⟨val, lease⟩) })

/-- Modelled from the spec: the store's `Delete(key)`, which returns an error
on failure; deleting a missing key is no error. This is the client call
`Delete(ctx, key)`. -/
def Etcd.Delete (cli : Etcd) (key : String) : Except Err Unit × Etcd :=
  match cli.fault with
  | some e => (.error e, cli.tick)
  | none => (.ok (), { cli.tick with kvs := Function.update cli.kvs key none })

/-- Modelled from the spec: the store's `GrantLease(ttlSeconds) -> LeaseID`,
where a lease with `ttlSeconds <= 0` is rejected. This is the client call
`Grant(ctx, ttl)`. -/
def Etcd.Grant (cli : Etcd) (ttl : Int) : Except Err LeaseGrantResponse × Etcd :=
  match cli.fault with
  | some e => (.error e, cli.tick)
  | none =>
    if ttl ≤ 0 then (.error .invalidTTL, cli.tick)
    else (.ok ⟨cli.nextLease⟩,
          { cli.tick with
            leases := Function.update cli.leases cli.nextLease (some ttl)
            nextLease := cli.nextLease + 1 })

/-- Apply the puts of a transaction in order. -/
def applyOps (kvs : String → Option KeyValue) : List Op → String → Option KeyValue
  | [] => kvs
  | op :: ops => applyOps (Function.update kvs op.key (some ⟨op.val, op.lease⟩)) ops

/-- Modelled from the spec: the store's `AtomicBatch([]PutOp)`, which applies
all operations, in the order given, or none. This is the call
`Txn(ctx).Then(ops...).Commit()`. -/
def Etcd.Commit (cli : Etcd) (ops : List Op) : Except Err Unit × Etcd :=
  match cli.fault with
  | some e => (.error e, cli.tick)
  | none => (.ok (), { cli.tick with kvs := applyOps cli.kvs ops })

/-! ## The token store -/

/-- The `TokenStore` of etcd.go without its client, which is passed
explicitly. -/
structure TokenStore where
  ns : String

/-- Function `NewEtcdStoreWithCli`: the first namespace given, if any, is the prefix. -/
def NewEtcdStoreWithCli (keyNamespace : List String) : TokenStore :=
  match keyNamespace with
  | [] => ⟨""⟩
  | ns :: _ => ⟨ns⟩

/-- Function `wrapperKey`: `fmt.Sprintf("%s%s", s.ns, key)`. -/
def TokenStore.wrapperKey (s : TokenStore) (key : String) : String := s.ns ++ key

/-- Function `remove`: delete the wrapped key. -/
def TokenStore.remove (s : TokenStore) (cli : Etcd) (key : String) : Except Err Unit × Etcd :=
  match cli.Delete (s.wrapperKey key) with
  | (.error err, cli) => (.error err, cli)
  | (.ok _, cli) => (.ok (), cli)

/-- Function `parseToken`: no key (`res.Count == 0`, that is, `res.Kvs` is
empty) gives `nil`, otherwise the first value is decoded. -/
def TokenStore.parseToken (j : Codec) (res : GetResponse) : Except Err (Option Token) :=
  match res.Kvs with
  | [] => .ok none
  | kv :: _ =>
    match j.decode kv.Value with
    | .error err => .error err
    | .ok token => .ok (some token)

/-- Function `getToken`: read the wrapped key and parse the answer. -/
def TokenStore.getToken (s : TokenStore) (j : Codec) (cli : Etcd) (key : String) :
    Except Err (Option Token) × Etcd :=
  match cli.Get (s.wrapperKey key) with
  | (.error err, cli) => (.error err, cli)
  | (.ok result, cli) => (TokenStore.parseToken j result, cli)

/-- Function `parseBasicID`: no key (`res.Count == 0`, that is, `res.Kvs` is
empty) gives the empty string, otherwise the first value. -/
def TokenStore.parseBasicID (res : GetResponse) : Except Err String :=
  match res.Kvs with
  | [] => .ok ""
  | kv :: _ => .ok kv.Value

/-- Function `getBasicID`: read the wrapped key and parse the answer. -/
def TokenStore.getBasicID (s : TokenStore) (cli : Etcd) (token : String) :
    Except Err String × Etcd :=
  match cli.Get (s.wrapperKey token) with
  | (.error err, cli) => (.error err, cli)
  | (.ok result, cli) => (TokenStore.parseBasicID result, cli)

/-- Function `removeToken`: delete the index key of a credential and, when the record's
other credential is no longer in the store, the record itself. -/
def TokenStore.removeToken (s : TokenStore) (j : Codec) (cli : Etcd) (tokenString : String)
    (isRefresh : Bool) : Except Err Unit × Etcd :=
  match s.getBasicID cli tokenString with
  | (.error err, cli) => (.error err, cli)
  | (.ok basicID, cli) =>
    if basicID = "" then (.ok (), cli)
    else
      match s.remove cli tokenString with
      | (.error err, cli) => (.error err, cli)
      | (.ok _, cli) =>
        match s.getToken j cli basicID with
        | (.error err, cli) => (.error err, cli)
        | (.ok none, cli) => (.ok (), cli)
        | (.ok (some token), cli) =>
          let checkToken := if isRefresh then token.Access else token.Refresh
          if checkToken = "" then (.ok (), cli)
          else
            match cli.Get (s.wrapperKey checkToken) with
            | (.error err, cli) => (.error err, cli)
            | (.ok res, cli) =>
              if res.Count = 0 then
                match s.remove cli basicID with
                | (.error err, cli) => (.error err, cli)
                | (.ok _, cli) => (.ok (), cli)
              else (.ok (), cli)

/-- Function `Create`: store the record under its code, or under a fresh identifier
with index keys for its access and refresh tokens.

In the code branch the result of `Put` is discarded. In the other branch both
leases are granted from `aexp` and `rexp` as they stand at that point
(`aexp := info.GetAccessExpiresIn()`, `rexp := aexp`). The assignments that
follow inside the refresh branch, `rexp = refreshCreateAt + refreshExpiresIn - ct`
and `aexp = rexp` when `aexp.Seconds() > rexp.Seconds()`, write locals that
are never read again: they leave no trace in the store or in the result, and
neither they nor `ct := time.Now()` appear below. -/
def TokenStore.Create (s : TokenStore) (j : Codec) (id : UUIDString) (cli : Etcd) (info : Token) :
    Except Err Unit × Etcd :=
  match j.encode info with
  | .error err => (.error err, cli)
  | .ok jv =>
    if info.Code ≠ "" then
      match cli.Grant info.CodeExpiresIn with
      | (.error err, cli) => (.error err, cli)
      | (.ok lease, cli) =>
        let cli := (cli.Put (s.wrapperKey info.Code) jv (some lease.ID)).2
        (.ok (), cli)
    else
      let basicID := id.text
      let aexp := info.AccessExpiresIn
      let rexp := aexp
      match cli.Grant aexp with
      | (.error err, cli) => (.error err, cli)
      | (.ok aexpLease, cli) =>
        match cli.Grant rexp with
        | (.error err, cli) => (.error err, cli)
        | (.ok rexpLease, cli) =>
          let ops : List Op :=
            if info.Refresh ≠ "" then [⟨s.wrapperKey info.Refresh, basicID, some rexpLease.ID⟩]
            else []
          let ops := ops ++
            [⟨s.wrapperKey info.Access, basicID, some aexpLease.ID⟩,
             ⟨s.wrapperKey basicID, jv, none⟩]
          match cli.Commit ops with
          | (.error err, cli) => (.error err, cli)
          | (.ok _, cli) => (.ok (), cli)

/-- Method `RemoveByCode`. -/
def TokenStore.RemoveByCode (s : TokenStore) (cli : Etcd) (code : String) : Except Err Unit × Etcd :=
  s.remove cli code

/-- Method `RemoveByAccess`. -/
def TokenStore.RemoveByAccess (s : TokenStore) (j : Codec) (cli : Etcd) (access : String) :
    Except Err Unit × Etcd :=
  s.removeToken j cli access false

/-- Method `RemoveByRefresh`. -/
def TokenStore.RemoveByRefresh (s : TokenStore) (j : Codec) (cli : Etcd) (refresh : String) :
    Except Err Unit × Etcd :=
  s.removeToken j cli refresh true

/-- Method `GetByCode`. -/
def TokenStore.GetByCode (s : TokenStore) (j : Codec) (cli : Etcd) (code : String) :
    Except Err (Option Token) × Etcd :=
  s.getToken j cli code

/-- Method `GetByAccess`. -/
def TokenStore.GetByAccess (s : TokenStore) (j : Codec) (cli : Etcd) (access : String) :
    Except Err (Option Token) × Etcd :=
  match s.getBasicID cli access with
  | (.error err, cli) => (.error err, cli)
  | (.ok basicID, cli) =>
    if basicID = "" then (.ok none, cli)
    else s.getToken j cli basicID

/-- Method `GetByRefresh`. -/
def TokenStore.GetByRefresh (s : TokenStore) (j : Codec) (cli : Etcd) (refresh : String) :
    Except Err (Option Token) × Etcd :=
  match s.getBasicID cli refresh with
  | (.error err, cli) => (.error err, cli)
  | (.ok basicID, cli) =>
    if basicID = "" then (.ok none, cli)
    else s.getToken j cli basicID

/-! ## Vocabulary of the statements -/

/-- Every call made through the client is answered: no failure is scheduled. -/
def Etcd.healthy (cli : Etcd) : Prop := ∀ n, cli.faults n = none

/-- The codec is symmetric at `info`: decoding what `info` encodes to gives
`info` back. -/
def Codec.RoundTrips (j : Codec) (info : Token) : Prop :=
  ∃ jv, j.encode info = .ok jv ∧ j.decode jv = .ok info

/-- The value held by a key, if the key is in the store. -/
def Etcd.valueAt (cli : Etcd) (key : String) : Option String :=
  (cli.kvs key).map KeyValue.Value

/-- The time-to-live that was handed to `Grant` for the lease a key is
attached to, if the key is in the store and has a lease. -/
def Etcd.ttlAt (cli : Etcd) (key : String) : Option Int :=
  ((cli.kvs key).bind KeyValue.Lease).bind cli.leases

/-- The access lease as the specification words it: the access validity,
capped at what remains of the refresh validity. -/
def accessLeaseSpec (accessValidity refreshCreatedAt refreshValidity now : Int) : Int :=
  min accessValidity (refreshCreatedAt + refreshValidity - now)

/-- The key space after the transaction of the access/refresh branch. -/
def createdKvs (s : TokenStore) (c : Etcd) (info : Token) (bid jv : String) :
    String → Option KeyValue :=
  Function.update
    (Function.update
      (if info.Refresh ≠ "" then
        Function.update c.kvs (s.wrapperKey info.Refresh) (some ⟨bid, some (c.nextLease + 1)⟩)
       else c.kvs)
      (s.wrapperKey info.Access) (some ⟨bid, some c.nextLease⟩))
    (s.wrapperKey bid) (some ⟨jv, none⟩)

/-- The code lease as the specification words it: the code's validity
expressed in seconds. -/
def codeLeaseSpec (codeValidity : Duration) : Int := codeValidity / Second

/-- One removal call: `RemoveByAccess(access)` or `RemoveByRefresh(refresh)`. -/
inductive Removal where
  | byAccess (access : String)
  | byRefresh (refresh : String)
  deriving DecidableEq, Repr

/-- The credential a removal call is given. -/
def Removal.token : Removal → String
  | .byAccess access => access
  | .byRefresh refresh => refresh

/-- Make one removal call. -/
def TokenStore.removeCall (s : TokenStore) (j : Codec) (cli : Etcd) :
    Removal → Except Err Unit × Etcd
  | .byAccess access => s.RemoveByAccess j cli access
  | .byRefresh refresh => s.RemoveByRefresh j cli refresh

/-- The store after a sequence of removal calls, made one after the other
whatever each of them returns. -/
def TokenStore.removeCalls (s : TokenStore) (j : Codec) (cli : Etcd) : List Removal → Etcd
  | [] => cli
  | r :: rs => TokenStore.removeCalls s j (s.removeCall j cli r).2 rs

/-- The key space `removeToken` leaves when the store answers every call, as a
function of the key space it starts from. -/
def removedKvs (s : TokenStore) (j : Codec) (kvs : String → Option KeyValue)
    (tokenString : String) (isRefresh : Bool) : String → Option KeyValue :=
  match kvs (s.wrapperKey tokenString) with
  | none => kvs
  | some kv =>
    if kv.Value = "" then kvs
    else
      match Function.update kvs (s.wrapperKey tokenString) none (s.wrapperKey kv.Value) with
      | none => Function.update kvs (s.wrapperKey tokenString) none
      | some kv2 =>
        match j.decode kv2.Value with
        | .error _ => Function.update kvs (s.wrapperKey tokenString) none
        | .ok token =>
          if (if isRefresh then token.Access else token.Refresh) = "" then
            Function.update kvs (s.wrapperKey tokenString) none
          else
            match Function.update kvs (s.wrapperKey tokenString) none
                (s.wrapperKey (if isRefresh then token.Access else token.Refresh)) with
            | none =>
              Function.update (Function.update kvs (s.wrapperKey tokenString) none)
                (s.wrapperKey kv.Value) none
            | some _ => Function.update kvs (s.wrapperKey tokenString) none

/-- The keys of the record `info`, stored under the identifier `bid` as `jv`,
are in order in `kvs`: the access key and the refresh key, where present, hold
`bid`; the identifier's key, where present, holds `jv`; and the identifier's
key is present only if the access key or the refresh key is. -/
def RecordInOrder (s : TokenStore) (info : Token) (bid jv : String)
    (kvs : String → Option KeyValue) : Prop :=
  (∀ kv, kvs (s.wrapperKey info.Access) = some kv → kv.Value = bid) ∧
  (∀ kv, kvs (s.wrapperKey info.Refresh) = some kv → kv.Value = bid) ∧
  (∀ kv, kvs (s.wrapperKey bid) = some kv → kv.Value = jv) ∧
  (kvs (s.wrapperKey bid) ≠ none →
    kvs (s.wrapperKey info.Access) ≠ none ∨ kvs (s.wrapperKey info.Refresh) ≠ none)

/-! ## Sample data -/

/-- An empty store that answers every call. -/
def emptyStore : Etcd := ⟨fun _ => none, fun _ => none, 1, fun _ => none, 0⟩

/-- An empty store whose `n`-th call fails with `err` and that answers every
other call. -/
def emptyStoreFailingAt (n : Nat) (err : Err) : Etcd :=
  ⟨fun _ => none, fun _ => none, 1, fun m => if m = n then some err else none, 0⟩

/-- A codec that encodes every record as `"blob"` and decodes `"blob"` to `t`;
it is symmetric at `t`. -/
def blobCodec (t : Token) : Codec :=
  ⟨fun _ => .ok "blob", fun b => if b = "blob" then .ok t else .error (.codec 0)⟩

/-- A sample identifier. -/
def sampleID : UUIDString := ⟨"123e4567-e89b-42d3-a456-426614174000", by decide⟩

/-- The record of the test "Test authorization code store". -/
def codeToken : Token :=
  { ClientID := "1", UserID := "1_1", RedirectURI := "http://localhost/", Scope := "all",
    Code := "11_11_11", CodeExpiresIn := 5 * Second }

/-- The record of the test "Test access token store". -/
def accessToken : Token :=
  { ClientID := "1", UserID := "1_1", RedirectURI := "http://localhost/", Scope := "all",
    Access := "1_1_1", AccessExpiresIn := 5 * Second }

/-- The record of the test "Test refresh token store". -/
def refreshToken : Token :=
  { ClientID := "1", UserID := "1_2", RedirectURI := "http://localhost/", Scope := "all",
    Access := "1_2_1", AccessExpiresIn := 5 * Second,
    Refresh := "1_2_2", RefreshExpiresIn := 15 * Second }

/-- A record whose access token is valid for 100 seconds and whose refresh
token, created now, is valid for 10 seconds. -/
def clampToken : Token :=
  { ClientID := "1", UserID := "1_3", RedirectURI := "http://localhost/", Scope := "all",
    Access := "A", AccessExpiresIn := 100 * Second,
    Refresh := "R", RefreshCreateAt := 0, RefreshExpiresIn := 10 * Second }

/-- A store that answers every call and already holds a key `stray` whose
value is the access token of `refreshToken`. -/
def strayStore : Etcd :=
  ⟨fun k => if k = "stray" then some ⟨"1_2_1", none⟩ else none, fun _ => none, 1,
    fun _ => none, 0⟩

/-- A codec that is symmetric at `refreshToken` and that also decodes the text
of `sampleID`, to a record naming a refresh token `other`. -/
def strayCodec : Codec :=
  ⟨fun _ => .ok "blob",
   fun b => if b = "blob" then .ok refreshToken
            else if b = sampleID.text then .ok { Refresh := "other" }
            else .error (.codec 0)⟩

/-! ## Basic facts -/

theorem blobCodec_roundTrips (t : Token) : (blobCodec t).RoundTrips t :=
  ⟨"blob", rfl, by simp [blobCodec]⟩

theorem emptyStore_healthy : emptyStore.healthy := fun _ => rfl

theorem UUIDString.text_ne_empty (id : UUIDString) : id.text ≠ "" := by
  intro h
  have hl := id.len
  rw [h] at hl
  exact absurd hl (by decide)

/-- Wrapping is injective in the key. -/
theorem wrapperKey_inj (s : TokenStore) {a b : String} :
    s.wrapperKey a = s.wrapperKey b ↔ a = b := by
  constructor
  · intro h
    have h2 := congrArg String.data h
    simp only [TokenStore.wrapperKey, String.data_append] at h2
    exact String.ext (List.append_cancel_left h2)
  · intro h; rw [h]

/-! ## Lookups and removals on a store that answers every call -/

theorem getToken_healthy (s : TokenStore) (j : Codec) (c : Etcd) (key : String) (hh : c.healthy) :
    s.getToken j c key = (TokenStore.parseToken j ⟨(c.kvs (s.wrapperKey key)).toList⟩, c.tick) := by
  have hf : ∀ n, c.faults n = none := hh
  simp [TokenStore.getToken, Etcd.Get, Etcd.fault, hf]

theorem getBasicID_healthy (s : TokenStore) (c : Etcd) (key : String) (hh : c.healthy) :
    s.getBasicID c key =
      (TokenStore.parseBasicID ⟨(c.kvs (s.wrapperKey key)).toList⟩, c.tick) := by
  have hf : ∀ n, c.faults n = none := hh
  simp [TokenStore.getBasicID, Etcd.Get, Etcd.fault, hf]

theorem tick_healthy {c : Etcd} (hh : c.healthy) : c.tick.healthy := hh

/-- A lookup by code of a missing key finds nothing. -/
theorem GetByCode_absent (s : TokenStore) (j : Codec) (c : Etcd) (k : String) (hh : c.healthy)
    (habs : c.kvs (s.wrapperKey k) = none) : (s.GetByCode j c k).1 = .ok none := by
  simp [TokenStore.GetByCode, getToken_healthy s j c k hh, habs, TokenStore.parseToken]

/-- A lookup through a missing index key finds nothing. -/
theorem GetByAccess_absent (s : TokenStore) (j : Codec) (c : Etcd) (k : String) (hh : c.healthy)
    (habs : c.kvs (s.wrapperKey k) = none) : (s.GetByAccess j c k).1 = .ok none := by
  simp [TokenStore.GetByAccess, getBasicID_healthy s c k hh, habs, TokenStore.parseBasicID]

theorem GetByRefresh_eq_GetByAccess (s : TokenStore) (j : Codec) (c : Etcd) (k : String) :
    s.GetByRefresh j c k = s.GetByAccess j c k := rfl

/-- A lookup through an index key that points at a stored record decodes it. -/
theorem GetByAccess_indexed (s : TokenStore) (j : Codec) (c : Etcd) (k bid jv : String)
    (info : Token) (l lb : Option Nat) (hh : c.healthy)
    (hidx : c.kvs (s.wrapperKey k) = some ⟨bid, l⟩) (hbid : bid ≠ "")
    (hblob : c.kvs (s.wrapperKey bid) = some ⟨jv, lb⟩) (hdec : j.decode jv = .ok info) :
    (s.GetByAccess j c k).1 = .ok (some info) := by
  have hg := getToken_healthy s j c.tick bid (tick_healthy hh)
  have hb : c.tick.kvs (s.wrapperKey bid) = some ⟨jv, lb⟩ := hblob
  simp [TokenStore.GetByAccess, getBasicID_healthy s c k hh, hidx, TokenStore.parseBasicID, hbid,
    hg, hb, TokenStore.parseToken, hdec]

/-- Removing a key: the call succeeds and only that key goes. -/
theorem remove_healthy (s : TokenStore) (c : Etcd) (k : String) (hh : c.healthy) :
    s.remove c k =
      (.ok (), { c with kvs := Function.update c.kvs (s.wrapperKey k) none,
                        calls := c.calls + 1 }) := by
  have hf : ∀ n, c.faults n = none := hh
  simp [TokenStore.remove, Etcd.Delete, Etcd.fault, Etcd.tick, hf]

/-- Removing through a missing index key does nothing. -/
theorem removeToken_absent (s : TokenStore) (j : Codec) (c : Etcd) (t : String) (b : Bool)
    (hh : c.healthy) (habs : c.kvs (s.wrapperKey t) = none) :
    s.removeToken j c t b = (.ok (), c.tick) := by
  simp [TokenStore.removeToken, getBasicID_healthy s c t hh, TokenStore.parseBasicID, habs]

/-- Removing a credential whose sibling is still in the store deletes only the
index key of that credential. -/
theorem removeToken_sibling_present (s : TokenStore) (j : Codec) (c : Etcd) (info : Token)
    (t bid jv : String) (b : Bool) (l lb : Option Nat) (kv : KeyValue) (hh : c.healthy)
    (hidx : c.kvs (s.wrapperKey t) = some ⟨bid, l⟩) (hbid : bid ≠ "") (hbt : bid ≠ t)
    (hblob : c.kvs (s.wrapperKey bid) = some ⟨jv, lb⟩) (hdec : j.decode jv = .ok info)
    (hsib : (if b then info.Access else info.Refresh) ≠ "")
    (hst : (if b then info.Access else info.Refresh) ≠ t)
    (hpres : c.kvs (s.wrapperKey (if b then info.Access else info.Refresh)) = some kv) :
    s.removeToken j c t b =
      (.ok (), { c with kvs := Function.update c.kvs (s.wrapperKey t) none,
                        calls := c.calls + 4 }) := by
  have hf : ∀ n, c.faults n = none := hh
  have h1 : s.wrapperKey bid ≠ s.wrapperKey t := by simpa [wrapperKey_inj] using hbt
  have h2 : s.wrapperKey (if b then info.Access else info.Refresh) ≠ s.wrapperKey t := by
    simpa [wrapperKey_inj] using hst
  simp [TokenStore.removeToken, TokenStore.getBasicID, TokenStore.parseBasicID, Etcd.Get,
    TokenStore.remove, Etcd.Delete, TokenStore.getToken, TokenStore.parseToken,
    Etcd.fault, Etcd.tick, hf, hidx, hblob, hdec, hbid, hsib, h1, h2, hpres,
    Function.update_apply, GetResponse.Count]

/-- Removing a credential whose sibling is no longer in the store deletes the
index key of that credential and the record. -/
theorem removeToken_sibling_gone (s : TokenStore) (j : Codec) (c : Etcd) (info : Token)
    (t bid jv : String) (b : Bool) (l lb : Option Nat) (hh : c.healthy)
    (hidx : c.kvs (s.wrapperKey t) = some ⟨bid, l⟩) (hbid : bid ≠ "") (hbt : bid ≠ t)
    (hblob : c.kvs (s.wrapperKey bid) = some ⟨jv, lb⟩) (hdec : j.decode jv = .ok info)
    (hsib : (if b then info.Access else info.Refresh) ≠ "")
    (hgone : c.kvs (s.wrapperKey (if b then info.Access else info.Refresh)) = none) :
    s.removeToken j c t b =
      (.ok (), { c with kvs := Function.update (Function.update c.kvs (s.wrapperKey t) none)
                                 (s.wrapperKey bid) none,
                        calls := c.calls + 5 }) := by
  have hf : ∀ n, c.faults n = none := hh
  have h1 : s.wrapperKey bid ≠ s.wrapperKey t := by simpa [wrapperKey_inj] using hbt
  simp [TokenStore.removeToken, TokenStore.getBasicID, TokenStore.parseBasicID, Etcd.Get,
    TokenStore.remove, Etcd.Delete, TokenStore.getToken, TokenStore.parseToken,
    Etcd.fault, Etcd.tick, hf, hidx, hblob, hdec, hbid, hsib, h1, hgone,
    Function.update_apply, GetResponse.Count]

/-- Removing a credential of a record that names no sibling deletes only the
index key of that credential: the record stays. -/
theorem removeToken_no_sibling (s : TokenStore) (j : Codec) (c : Etcd) (info : Token)
    (t bid jv : String) (b : Bool) (l lb : Option Nat) (hh : c.healthy)
    (hidx : c.kvs (s.wrapperKey t) = some ⟨bid, l⟩) (hbid : bid ≠ "") (hbt : bid ≠ t)
    (hblob : c.kvs (s.wrapperKey bid) = some ⟨jv, lb⟩) (hdec : j.decode jv = .ok info)
    (hsib : (if b then info.Access else info.Refresh) = "") :
    s.removeToken j c t b =
      (.ok (), { c with kvs := Function.update c.kvs (s.wrapperKey t) none,
                        calls := c.calls + 3 }) := by
  have hf : ∀ n, c.faults n = none := hh
  have h1 : s.wrapperKey bid ≠ s.wrapperKey t := by simpa [wrapperKey_inj] using hbt
  simp [TokenStore.removeToken, TokenStore.getBasicID, TokenStore.parseBasicID, Etcd.Get,
    TokenStore.remove, Etcd.Delete, TokenStore.getToken, TokenStore.parseToken,
    Etcd.fault, Etcd.tick, hf, hidx, hblob, hdec, hbid, hsib, h1,
    Function.update_apply]

/-! ## What `Create` leaves in a store that answers every call -/

/-- The code branch: one lease, one key. -/
theorem Create_code_healthy (s : TokenStore) (j : Codec) (id : UUIDString) (c : Etcd)
    (info : Token) (jv : String) (hh : c.healthy) (hcode : info.Code ≠ "")
    (httl : 0 < info.CodeExpiresIn) (henc : j.encode info = .ok jv) :
    s.Create j id c info =
      (.ok (), { c with
        kvs := Function.update c.kvs (s.wrapperKey info.Code) (some ⟨jv, some c.nextLease⟩)
        leases := Function.update c.leases c.nextLease (some info.CodeExpiresIn)
        nextLease := c.nextLease + 1
        calls := c.calls + 2 }) := by
  have hf : ∀ n, c.faults n = none := hh
  simp [TokenStore.Create, henc, hcode, Etcd.Grant, Etcd.Put, Etcd.fault, Etcd.tick, hf,
    not_le.mpr httl]

/-- The access/refresh branch: two leases, both sized from the access
validity, and one transaction. -/
theorem Create_access_healthy (s : TokenStore) (j : Codec) (id : UUIDString) (c : Etcd)
    (info : Token) (jv : String) (hh : c.healthy) (hcode : info.Code = "")
    (httl : 0 < info.AccessExpiresIn) (henc : j.encode info = .ok jv) :
    s.Create j id c info =
      (.ok (), { c with
        kvs := createdKvs s c info id.text jv
        leases := Function.update
          (Function.update c.leases c.nextLease (some info.AccessExpiresIn))
          (c.nextLease + 1) (some info.AccessExpiresIn)
        nextLease := c.nextLease + 1 + 1
        calls := c.calls + 3 }) := by
  have hf : ∀ n, c.faults n = none := hh
  by_cases hR : info.Refresh = "" <;>
  simp [TokenStore.Create, henc, hcode, Etcd.Grant, Etcd.Commit, Etcd.fault, Etcd.tick, hf,
    not_le.mpr httl, hR, applyOps, createdKvs]

/-- In a store that answers every call, the access/refresh branch succeeds
only if the codec encoded the record and the lease was accepted. -/
theorem Create_access_ok (s : TokenStore) (j : Codec) (id : UUIDString) (c : Etcd)
    (info : Token) (hh : c.healthy) (hcode : info.Code = "")
    (hok : (s.Create j id c info).1 = .ok ()) :
    0 < info.AccessExpiresIn ∧ ∃ jv, j.encode info = .ok jv := by
  have hf : ∀ n, c.faults n = none := hh
  constructor
  · by_contra hn
    have hle : info.AccessExpiresIn ≤ 0 := not_lt.mp hn
    cases henc : j.encode info <;>
    simp [TokenStore.Create, henc, hcode, Etcd.Grant, Etcd.fault, hf, hle] at hok
  · cases henc : j.encode info with
    | error e => simp [TokenStore.Create, henc] at hok
    | ok jv => exact ⟨jv, rfl⟩

theorem createdKvs_blob (s : TokenStore) (c : Etcd) (info : Token) (bid jv : String) :
    createdKvs s c info bid jv (s.wrapperKey bid) = some ⟨jv, none⟩ := by
  simp [createdKvs]

theorem createdKvs_access (s : TokenStore) (c : Etcd) (info : Token) (bid jv : String)
    (hbA : bid ≠ info.Access) :
    createdKvs s c info bid jv (s.wrapperKey info.Access) = some ⟨bid, some c.nextLease⟩ := by
  have h1 : s.wrapperKey info.Access ≠ s.wrapperKey bid := by
    simpa [wrapperKey_inj] using (Ne.symm hbA)
  simp [createdKvs, Function.update_apply, h1]

theorem createdKvs_refresh (s : TokenStore) (c : Etcd) (info : Token) (bid jv : String)
    (hR : info.Refresh ≠ "") (hbR : bid ≠ info.Refresh) :
    ∃ l, createdKvs s c info bid jv (s.wrapperKey info.Refresh) = some ⟨bid, l⟩ := by
  have h1 : s.wrapperKey info.Refresh ≠ s.wrapperKey bid := by
    simpa [wrapperKey_inj] using (Ne.symm hbR)
  by_cases h2 : s.wrapperKey info.Refresh = s.wrapperKey info.Access
  · refine ⟨some c.nextLease, ?_⟩
    have h3 : s.wrapperKey info.Access ≠ s.wrapperKey bid := h2 ▸ h1
    simp [createdKvs, Function.update_apply, h2, h3]
  · exact ⟨some (c.nextLease + 1), by simp [createdKvs, Function.update_apply, h1, h2, hR]⟩

/-! ## The claims -/

/-- C1. In a store that answers every call, with a codec symmetric at the
record and a code lease the store accepts, `Create` of a record with a
non-empty code succeeds, and `GetByCode` of that code then returns, without
error, a record with the same user, client, scope and redirect URI. -/
theorem create_then_getByCode (s : TokenStore) (j : Codec) (id : UUIDString) (c : Etcd)
    (info : Token) (hcode : info.Code ≠ "") (hh : c.healthy) (httl : 0 < info.CodeExpiresIn)
    (hj : j.RoundTrips info) :
    (s.Create j id c info).1 = .ok () ∧
    ∃ t, (s.GetByCode j (s.Create j id c info).2 info.Code).1 = .ok (some t) ∧
      t.UserID = info.UserID ∧ t.ClientID = info.ClientID ∧ t.Scope = info.Scope ∧
      t.RedirectURI = info.RedirectURI := by
  obtain ⟨jv, henc, hdec⟩ := hj
  rw [Create_code_healthy s j id c info jv hh hcode httl henc]
  refine ⟨rfl, info, ?_, rfl, rfl, rfl, rfl⟩
  have hf : ∀ n, c.faults n = none := hh
  simp [TokenStore.GetByCode, TokenStore.getToken, TokenStore.parseToken, Etcd.Get, Etcd.fault,
    hf, hdec]

theorem create_then_getByCode_witness :
    ((⟨"test:"⟩ : TokenStore).Create (blobCodec codeToken) sampleID emptyStore codeToken).1
        = .ok () ∧
    ∃ t, ((⟨"test:"⟩ : TokenStore).GetByCode (blobCodec codeToken)
        ((⟨"test:"⟩ : TokenStore).Create (blobCodec codeToken) sampleID emptyStore codeToken).2
        codeToken.Code).1 = .ok (some t) ∧
      t.UserID = codeToken.UserID ∧ t.ClientID = codeToken.ClientID ∧
      t.Scope = codeToken.Scope ∧ t.RedirectURI = codeToken.RedirectURI :=
  create_then_getByCode ⟨"test:"⟩ (blobCodec codeToken) sampleID emptyStore codeToken
    (by decide) emptyStore_healthy (by decide) (blobCodec_roundTrips codeToken)

/-- C2. When `Create` of a record with an empty code and a non-empty access
token succeeds with an identifier different from the access and refresh
tokens, then right afterwards the access key (and the refresh key, when the
refresh token is non-empty) holds the identifier, the identifier's key holds
the serialized record, and, the codec being symmetric at the record and the
store answering, `GetByAccess` (and `GetByRefresh`) returns the record. -/
theorem create_then_getByAccess (s : TokenStore) (j : Codec) (id : UUIDString) (c : Etcd)
    (info : Token) (hcode : info.Code = "") (_hA : info.Access ≠ "")
    (hfA : id.text ≠ info.Access) (hfR : id.text ≠ info.Refresh) (hh : c.healthy)
    (hok : (s.Create j id c info).1 = .ok ()) (hj : j.RoundTrips info) :
    (s.Create j id c info).2.valueAt (s.wrapperKey info.Access) = some id.text ∧
    (info.Refresh ≠ "" →
      (s.Create j id c info).2.valueAt (s.wrapperKey info.Refresh) = some id.text) ∧
    (∃ jv, j.encode info = .ok jv ∧
      (s.Create j id c info).2.valueAt (s.wrapperKey id.text) = some jv) ∧
    (s.GetByAccess j (s.Create j id c info).2 info.Access).1 = .ok (some info) ∧
    (info.Refresh ≠ "" →
      (s.GetByRefresh j (s.Create j id c info).2 info.Refresh).1 = .ok (some info)) := by
  obtain ⟨jv, henc, hdec⟩ := hj
  obtain ⟨httl, -⟩ := Create_access_ok s j id c info hh hcode hok
  rw [Create_access_healthy s j id c info jv hh hcode httl henc]
  have hB := createdKvs_blob s c info id.text jv
  have hAk := createdKvs_access s c info id.text jv hfA
  refine ⟨?_, ?_, ⟨jv, henc, ?_⟩, ?_, ?_⟩
  · simp [Etcd.valueAt, hAk]
  · intro hR
    obtain ⟨l, hl⟩ := createdKvs_refresh s c info id.text jv hR hfR
    simp [Etcd.valueAt, hl]
  · simp [Etcd.valueAt, hB]
  · exact GetByAccess_indexed s j _ info.Access id.text jv info _ _ hh hAk id.text_ne_empty hB hdec
  · intro hR
    obtain ⟨l, hl⟩ := createdKvs_refresh s c info id.text jv hR hfR
    exact GetByAccess_indexed s j _ info.Refresh id.text jv info _ _ hh hl id.text_ne_empty hB hdec

theorem create_then_getByAccess_witness :
    ((⟨"test:"⟩ : TokenStore).Create (blobCodec refreshToken) sampleID emptyStore
        refreshToken).2.valueAt ((⟨"test:"⟩ : TokenStore).wrapperKey refreshToken.Access)
      = some sampleID.text ∧
    ((⟨"test:"⟩ : TokenStore).GetByRefresh (blobCodec refreshToken)
        ((⟨"test:"⟩ : TokenStore).Create (blobCodec refreshToken) sampleID emptyStore
          refreshToken).2 refreshToken.Refresh).1 = .ok (some refreshToken) :=
  have h := create_then_getByAccess ⟨"test:"⟩ (blobCodec refreshToken) sampleID emptyStore
    refreshToken (by decide) (by decide) (by decide) (by decide) emptyStore_healthy rfl
    (blobCodec_roundTrips refreshToken)
  ⟨h.1, h.2.2.2.2 (by decide)⟩

/-- C3. A record with an empty code and distinct non-empty access and refresh
tokens is created in a store that answers every call. After
`RemoveByAccess` of its access token, `GetByRefresh` of its refresh token
still returns the record; after `RemoveByRefresh` of the refresh token as
well, `GetByAccess` and `GetByRefresh` both return nothing, without error,
and the identifier's key is no longer in the store. -/
theorem cascade_access_then_refresh (s : TokenStore) (j : Codec) (id : UUIDString) (c : Etcd)
    (info : Token) (hcode : info.Code = "") (hA : info.Access ≠ "") (hR : info.Refresh ≠ "")
    (hAR : info.Access ≠ info.Refresh) (hfA : id.text ≠ info.Access)
    (hfR : id.text ≠ info.Refresh) (hh : c.healthy) (httl : 0 < info.AccessExpiresIn)
    (hj : j.RoundTrips info) :
    ∃ c1 c2 c3,
      s.Create j id c info = (.ok (), c1) ∧
      s.RemoveByAccess j c1 info.Access = (.ok (), c2) ∧
      (s.GetByRefresh j c2 info.Refresh).1 = .ok (some info) ∧
      s.RemoveByRefresh j c2 info.Refresh = (.ok (), c3) ∧
      (s.GetByAccess j c3 info.Access).1 = .ok none ∧
      (s.GetByRefresh j c3 info.Refresh).1 = .ok none ∧
      c3.kvs (s.wrapperKey id.text) = none := by
  obtain ⟨jv, henc, hdec⟩ := hj
  have hB := createdKvs_blob s c info id.text jv
  have hAk := createdKvs_access s c info id.text jv hfA
  obtain ⟨l, hRk⟩ := createdKvs_refresh s c info id.text jv hR hfR
  have hwAR : s.wrapperKey info.Refresh ≠ s.wrapperKey info.Access := by
    simpa [wrapperKey_inj] using (Ne.symm hAR)
  have hwBA : s.wrapperKey id.text ≠ s.wrapperKey info.Access := by
    simpa [wrapperKey_inj] using hfA
  have hwBR : s.wrapperKey id.text ≠ s.wrapperKey info.Refresh := by
    simpa [wrapperKey_inj] using hfR
  refine ⟨_, _, _, Create_access_healthy s j id c info jv hh hcode httl henc,
    removeToken_sibling_present s j _ info info.Access id.text jv false _ _ _ hh hAk
      id.text_ne_empty hfA hB hdec (by simpa using hR) (by simpa using (Ne.symm hAR))
      (by simpa using hRk), ?_,
    removeToken_sibling_gone s j _ info info.Refresh id.text jv true l none hh ?_
      id.text_ne_empty hfR ?_ hdec (by simpa using hA) ?_, ?_, ?_, ?_⟩
  · refine GetByAccess_indexed s j _ info.Refresh id.text jv info l none hh ?_
      id.text_ne_empty ?_ hdec
    · simp [Function.update_apply, hwAR, hRk]
    · simp [Function.update_apply, hwBA, hB]
  · simp [Function.update_apply, hwAR, hRk]
  · simp [Function.update_apply, hwBA, hB]
  · simp [Function.update_apply]
  · refine GetByAccess_absent s j _ info.Access hh ?_
    simp [Function.update_apply, hwAR.symm, hwBA.symm]
  · refine GetByAccess_absent s j _ info.Refresh hh ?_
    simp [Function.update_apply, hwBR.symm]
  · simp [Function.update_apply]

theorem cascade_access_then_refresh_witness :
    ∃ c1 c2 c3,
      (⟨"test:"⟩ : TokenStore).Create (blobCodec refreshToken) sampleID emptyStore refreshToken
        = (.ok (), c1) ∧
      (⟨"test:"⟩ : TokenStore).RemoveByAccess (blobCodec refreshToken) c1 refreshToken.Access
        = (.ok (), c2) ∧
      ((⟨"test:"⟩ : TokenStore).GetByRefresh (blobCodec refreshToken) c2
        refreshToken.Refresh).1 = .ok (some refreshToken) ∧
      (⟨"test:"⟩ : TokenStore).RemoveByRefresh (blobCodec refreshToken) c2 refreshToken.Refresh
        = (.ok (), c3) ∧
      ((⟨"test:"⟩ : TokenStore).GetByAccess (blobCodec refreshToken) c3
        refreshToken.Access).1 = .ok none ∧
      ((⟨"test:"⟩ : TokenStore).GetByRefresh (blobCodec refreshToken) c3
        refreshToken.Refresh).1 = .ok none ∧
      c3.kvs ((⟨"test:"⟩ : TokenStore).wrapperKey sampleID.text) = none :=
  cascade_access_then_refresh ⟨"test:"⟩ (blobCodec refreshToken) sampleID emptyStore
    refreshToken (by decide) (by decide) (by decide) (by decide) (by decide) (by decide)
    emptyStore_healthy (by decide) (blobCodec_roundTrips refreshToken)

/-- C4. A record with an empty code and distinct non-empty access and refresh
tokens is created in a store that answers every call. Removing by refresh
token and then by access token leaves the same keys and values (and the same
leases) in the store as removing by access token and then by refresh token. -/
theorem cascade_order_independent (s : TokenStore) (j : Codec) (id : UUIDString) (c : Etcd)
    (info : Token) (hcode : info.Code = "") (hA : info.Access ≠ "") (hR : info.Refresh ≠ "")
    (hAR : info.Access ≠ info.Refresh) (hfA : id.text ≠ info.Access)
    (hfR : id.text ≠ info.Refresh) (hh : c.healthy) (httl : 0 < info.AccessExpiresIn)
    (hj : j.RoundTrips info) :
    ∃ c1 ca car cr cra,
      s.Create j id c info = (.ok (), c1) ∧
      s.RemoveByAccess j c1 info.Access = (.ok (), ca) ∧
      s.RemoveByRefresh j ca info.Refresh = (.ok (), car) ∧
      s.RemoveByRefresh j c1 info.Refresh = (.ok (), cr) ∧
      s.RemoveByAccess j cr info.Access = (.ok (), cra) ∧
      cra.kvs = car.kvs ∧ cra.leases = car.leases := by
  obtain ⟨jv, henc, hdec⟩ := hj
  have hB := createdKvs_blob s c info id.text jv
  have hAk := createdKvs_access s c info id.text jv hfA
  obtain ⟨l, hRk⟩ := createdKvs_refresh s c info id.text jv hR hfR
  have hwAR : s.wrapperKey info.Refresh ≠ s.wrapperKey info.Access := by
    simpa [wrapperKey_inj] using (Ne.symm hAR)
  have hwBA : s.wrapperKey id.text ≠ s.wrapperKey info.Access := by
    simpa [wrapperKey_inj] using hfA
  have hwBR : s.wrapperKey id.text ≠ s.wrapperKey info.Refresh := by
    simpa [wrapperKey_inj] using hfR
  refine ⟨_, _, _, _, _, Create_access_healthy s j id c info jv hh hcode httl henc,
    removeToken_sibling_present s j _ info info.Access id.text jv false _ _ _ hh hAk
      id.text_ne_empty hfA hB hdec (by simpa using hR) (by simpa using (Ne.symm hAR))
      (by simpa using hRk),
    removeToken_sibling_gone s j _ info info.Refresh id.text jv true l none hh ?_
      id.text_ne_empty hfR ?_ hdec (by simpa using hA) ?_,
    removeToken_sibling_present s j _ info info.Refresh id.text jv true _ _ _ hh hRk
      id.text_ne_empty hfR hB hdec (by simpa using hA) (by simpa using hAR)
      (by simpa using hAk),
    removeToken_sibling_gone s j _ info info.Access id.text jv false (some c.nextLease) none hh ?_
      id.text_ne_empty hfA ?_ hdec (by simpa using hR) ?_, ?_, rfl⟩
  · simp [Function.update_apply, hwAR, hRk]
  · simp [Function.update_apply, hwBA, hB]
  · simp [Function.update_apply]
  · simp [Function.update_apply, hwAR.symm, hAk]
  · simp [Function.update_apply, hwBR, hB]
  · simp [Function.update_apply]
  · funext k
    simp only [Function.update_apply]
    by_cases h1 : k = s.wrapperKey id.text <;> by_cases h2 : k = s.wrapperKey info.Access <;>
      by_cases h3 : k = s.wrapperKey info.Refresh <;> simp [h1, h2, h3]

theorem cascade_order_independent_witness :
    ∃ c1 ca car cr cra,
      (⟨"test:"⟩ : TokenStore).Create (blobCodec refreshToken) sampleID emptyStore refreshToken
        = (.ok (), c1) ∧
      (⟨"test:"⟩ : TokenStore).RemoveByAccess (blobCodec refreshToken) c1 refreshToken.Access
        = (.ok (), ca) ∧
      (⟨"test:"⟩ : TokenStore).RemoveByRefresh (blobCodec refreshToken) ca refreshToken.Refresh
        = (.ok (), car) ∧
      (⟨"test:"⟩ : TokenStore).RemoveByRefresh (blobCodec refreshToken) c1 refreshToken.Refresh
        = (.ok (), cr) ∧
      (⟨"test:"⟩ : TokenStore).RemoveByAccess (blobCodec refreshToken) cr refreshToken.Access
        = (.ok (), cra) ∧
      cra.kvs = car.kvs ∧ cra.leases = car.leases :=
  cascade_order_independent ⟨"test:"⟩ (blobCodec refreshToken) sampleID emptyStore
    refreshToken (by decide) (by decide) (by decide) (by decide) (by decide) (by decide)
    emptyStore_healthy (by decide) (blobCodec_roundTrips refreshToken)

/-- C10. In a store that answers every call, for a credential whose wrapped
key is not in the store, `GetByCode`, `GetByAccess` and `GetByRefresh` return
nothing without error, and `RemoveByCode`, `RemoveByAccess` and
`RemoveByRefresh` succeed and leave the keys and values as they were. Hence a
second `RemoveByCode` of any code succeeds, as the first does, and changes
nothing. -/
theorem absent_key_is_no_error (s : TokenStore) (j : Codec) (c : Etcd) (cred : String)
    (hh : c.healthy) (habs : c.kvs (s.wrapperKey cred) = none) :
    (s.GetByCode j c cred).1 = .ok none ∧
    (s.GetByAccess j c cred).1 = .ok none ∧
    (s.GetByRefresh j c cred).1 = .ok none ∧
    ((s.RemoveByCode c cred).1 = .ok () ∧ (s.RemoveByCode c cred).2.kvs = c.kvs) ∧
    ((s.RemoveByAccess j c cred).1 = .ok () ∧ (s.RemoveByAccess j c cred).2.kvs = c.kvs) ∧
    ((s.RemoveByRefresh j c cred).1 = .ok () ∧ (s.RemoveByRefresh j c cred).2.kvs = c.kvs) ∧
    (∀ (c0 : Etcd) (code : String), c0.healthy →
      (s.RemoveByCode c0 code).1 = .ok () ∧
      (s.RemoveByCode (s.RemoveByCode c0 code).2 code).1 = .ok () ∧
      (s.RemoveByCode (s.RemoveByCode c0 code).2 code).2.kvs
        = (s.RemoveByCode c0 code).2.kvs) := by
  refine ⟨GetByCode_absent s j c cred hh habs, GetByAccess_absent s j c cred hh habs,
    GetByAccess_absent s j c cred hh habs, ?_, ?_, ?_, ?_⟩
  · rw [TokenStore.RemoveByCode, remove_healthy s c cred hh]
    refine ⟨rfl, ?_⟩
    funext k
    by_cases hk : k = s.wrapperKey cred <;> simp [Function.update_apply, hk, habs]
  · rw [TokenStore.RemoveByAccess, removeToken_absent s j c cred false hh habs]
    exact ⟨rfl, rfl⟩
  · rw [TokenStore.RemoveByRefresh, removeToken_absent s j c cred true hh habs]
    exact ⟨rfl, rfl⟩
  · intro c0 code h0
    have hf : ∀ n, c0.faults n = none := h0
    simp [TokenStore.RemoveByCode, TokenStore.remove, Etcd.Delete, Etcd.fault, Etcd.tick, hf]

theorem absent_key_is_no_error_witness :
    ((⟨"test:"⟩ : TokenStore).GetByCode (blobCodec codeToken) emptyStore "11_11_11").1
      = .ok none ∧
    ((⟨"test:"⟩ : TokenStore).RemoveByAccess (blobCodec codeToken) emptyStore "11_11_11").1
      = .ok () :=
  have h := absent_key_is_no_error ⟨"test:"⟩ (blobCodec codeToken) emptyStore "11_11_11"
    emptyStore_healthy rfl
  ⟨h.1, h.2.2.2.2.1.1⟩

/-! ## What an instance can touch -/

theorem Get_state (c : Etcd) (k : String) : (c.Get k).2 = c.tick := by
  unfold Etcd.Get; split <;> rfl

theorem Delete_kvs_other (c : Etcd) (k k' : String) (h : k' ≠ k) :
    (c.Delete k).2.kvs k' = c.kvs k' := by
  unfold Etcd.Delete; split <;> simp [Etcd.tick, Function.update_apply, h]

theorem remove_kvs_other (s : TokenStore) (c : Etcd) (key k : String)
    (h : ∀ x, k ≠ s.wrapperKey x) : (s.remove c key).2.kvs k = c.kvs k := by
  have := Delete_kvs_other c (s.wrapperKey key) k (h key)
  unfold TokenStore.remove
  split <;> simp_all

theorem getBasicID_state (s : TokenStore) (c : Etcd) (t : String) :
    (s.getBasicID c t).2 = c.tick := by
  have := Get_state c (s.wrapperKey t)
  unfold TokenStore.getBasicID
  split <;> simp_all

theorem getToken_state (s : TokenStore) (j : Codec) (c : Etcd) (t : String) :
    (s.getToken j c t).2 = c.tick := by
  have := Get_state c (s.wrapperKey t)
  unfold TokenStore.getToken
  split <;> simp_all

theorem getBasicID_kvs (s : TokenStore) (c : Etcd) (t : String) :
    (s.getBasicID c t).2.kvs = c.kvs := by
  rw [getBasicID_state]; rfl

theorem getToken_kvs (s : TokenStore) (j : Codec) (c : Etcd) (t : String) :
    (s.getToken j c t).2.kvs = c.kvs := by
  rw [getToken_state]; rfl

theorem Get_kvs (c : Etcd) (k : String) : (c.Get k).2.kvs = c.kvs := by
  rw [Get_state]; rfl

/-- Whatever the store answers, `removeToken` leaves every key alone that is
not a wrapped key of its instance. -/
theorem removeToken_kvs_other (s : TokenStore) (j : Codec) (c : Etcd) (t : String) (b : Bool)
    (k : String) (h : ∀ x, k ≠ s.wrapperKey x) : (s.removeToken j c t b).2.kvs k = c.kvs k := by
  unfold TokenStore.removeToken
  have f1 := congrFun (getBasicID_kvs s c t) k
  rcases h1 : s.getBasicID c t with ⟨r1, c1⟩
  rw [h1] at f1
  dsimp only at f1
  cases r1 with
  | error e => exact f1
  | ok bid =>
    dsimp only
    by_cases hb : bid = ""
    · rw [if_pos hb]; exact f1
    · rw [if_neg hb]
      have f2 := remove_kvs_other s c1 t k h
      rcases h2 : s.remove c1 t with ⟨r2, c2⟩
      rw [h2] at f2
      dsimp only at f2
      rw [f1] at f2
      cases r2 with
      | error e => exact f2
      | ok u =>
        dsimp only
        have f3 := congrFun (getToken_kvs s j c2 bid) k
        rcases h3 : s.getToken j c2 bid with ⟨r3, c3⟩
        rw [h3] at f3
        dsimp only at f3
        rw [f2] at f3
        cases r3 with
        | error e => exact f3
        | ok o =>
          cases o with
          | none => exact f3
          | some tok =>
            dsimp only
            by_cases hs : (if b = true then tok.Access else tok.Refresh) = ""
            · rw [if_pos hs]; exact f3
            · rw [if_neg hs]
              have f4 := congrFun
                (Get_kvs c3 (s.wrapperKey (if b = true then tok.Access else tok.Refresh))) k
              rcases h4 : c3.Get (s.wrapperKey (if b = true then tok.Access else tok.Refresh))
                with ⟨r4, c4⟩
              rw [h4] at f4
              dsimp only at f4
              rw [f3] at f4
              cases r4 with
              | error e => exact f4
              | ok res =>
                dsimp only
                by_cases hc : res.Count = 0
                · rw [if_pos hc]
                  have f5 := remove_kvs_other s c4 bid k h
                  rcases h5 : s.remove c4 bid with ⟨r5, c5⟩
                  rw [h5] at f5
                  dsimp only at f5
                  rw [f4] at f5
                  cases r5 <;> exact f5
                · rw [if_neg hc]; exact f4

theorem Grant_kvs (c : Etcd) (ttl : Int) : (c.Grant ttl).2.kvs = c.kvs := by
  unfold Etcd.Grant; split
  · rfl
  · split <;> rfl

theorem Grant_faults (c : Etcd) (ttl : Int) : (c.Grant ttl).2.faults = c.faults := by
  unfold Etcd.Grant; split
  · rfl
  · split <;> rfl

theorem Put_kvs_other (c : Etcd) (k v : String) (l : Option Nat) (k' : String) (h : k' ≠ k) :
    (c.Put k v l).2.kvs k' = c.kvs k' := by
  unfold Etcd.Put; split <;> simp [Etcd.tick, Function.update_apply, h]

theorem Put_faults (c : Etcd) (k v : String) (l : Option Nat) :
    (c.Put k v l).2.faults = c.faults := by
  unfold Etcd.Put; split <;> rfl

theorem applyOps_other (ops : List Op) (kvs : String → Option KeyValue) (k' : String)
    (h : ∀ op ∈ ops, k' ≠ op.key) : applyOps kvs ops k' = kvs k' := by
  induction ops generalizing kvs with
  | nil => rfl
  | cons op ops ih =>
    rw [applyOps, ih _ (fun o ho => h o (List.mem_cons_of_mem _ ho))]
    simp [Function.update_apply, h op (List.mem_cons_self _ _)]

theorem Commit_kvs_other (c : Etcd) (ops : List Op) (k' : String)
    (h : ∀ op ∈ ops, k' ≠ op.key) : (c.Commit ops).2.kvs k' = c.kvs k' := by
  unfold Etcd.Commit; split
  · rfl
  · exact applyOps_other ops c.kvs k' h

theorem Commit_faults (c : Etcd) (ops : List Op) : (c.Commit ops).2.faults = c.faults := by
  unfold Etcd.Commit; split <;> rfl

/-- Whatever the store answers, `Create` leaves every key alone that is not a
wrapped key of its instance. -/
theorem Create_kvs_other (s : TokenStore) (j : Codec) (id : UUIDString) (c : Etcd) (info : Token)
    (k : String) (h : ∀ x, k ≠ s.wrapperKey x) : (s.Create j id c info).2.kvs k = c.kvs k := by
  unfold TokenStore.Create
  cases j.encode info with
  | error e => rfl
  | ok jv =>
    dsimp only
    by_cases hcode : info.Code = ""
    · rw [if_neg (not_not.mpr hcode)]
      have f1 := congrFun (Grant_kvs c info.AccessExpiresIn) k
      rcases h1 : c.Grant info.AccessExpiresIn with ⟨r1, c1⟩
      rw [h1] at f1
      dsimp only at f1
      cases r1 with
      | error e => exact f1
      | ok l1 =>
        dsimp only
        have f2 := congrFun (Grant_kvs c1 info.AccessExpiresIn) k
        rcases h2 : c1.Grant info.AccessExpiresIn with ⟨r2, c2⟩
        rw [h2] at f2
        dsimp only at f2
        rw [f1] at f2
        cases r2 with
        | error e => exact f2
        | ok l2 =>
          dsimp only
          split
          · rename_i err c3 heq
            have e3 := congrArg (fun p => p.2.kvs k) heq
            dsimp only at e3
            refine e3.symm.trans ((Commit_kvs_other c2 _ k ?_).trans f2)
            intro op hop
            by_cases hR : info.Refresh = "" <;> simp [hR] at hop <;>
              rcases hop with rfl | rfl | rfl <;> exact h _
          · rename_i u c3 heq
            have e3 := congrArg (fun p => p.2.kvs k) heq
            dsimp only at e3
            refine e3.symm.trans ((Commit_kvs_other c2 _ k ?_).trans f2)
            intro op hop
            by_cases hR : info.Refresh = "" <;> simp [hR] at hop <;>
              rcases hop with rfl | rfl | rfl <;> exact h _
    · rw [if_pos hcode]
      have f1 := congrFun (Grant_kvs c info.CodeExpiresIn) k
      rcases h1 : c.Grant info.CodeExpiresIn with ⟨r1, c1⟩
      rw [h1] at f1
      dsimp only at f1
      cases r1 with
      | error e => exact f1
      | ok l1 =>
        dsimp only
        rw [Put_kvs_other c1 _ _ _ k (h _)]
        exact f1

/-- Whatever the store answers, `Create` leaves the failure schedule alone. -/
theorem Create_faults (s : TokenStore) (j : Codec) (id : UUIDString) (c : Etcd) (info : Token) :
    (s.Create j id c info).2.faults = c.faults := by
  unfold TokenStore.Create
  cases j.encode info with
  | error e => rfl
  | ok jv =>
    dsimp only
    split
    · have f1 := Grant_faults c info.CodeExpiresIn
      split
      · rename_i heq; rw [heq] at f1; exact f1
      · rename_i heq; rw [heq] at f1; dsimp only at f1 ⊢; rw [Put_faults]; exact f1
    · have f1 := Grant_faults c info.AccessExpiresIn
      split
      · rename_i heq; rw [heq] at f1; exact f1
      · rename_i l1 c1 heq
        rw [heq] at f1
        have f2 := Grant_faults c1 info.AccessExpiresIn
        split
        · rename_i heq2; rw [heq2] at f2; exact f2.trans f1
        · rename_i l2 c2 heq2
          rw [heq2] at f2
          split
          · rename_i heq3
            have e3 := congrArg (fun p => p.2.faults) heq3
            exact e3.symm.trans ((Commit_faults c2 _).trans (f2.trans f1))
          · rename_i heq3
            have e3 := congrArg (fun p => p.2.faults) heq3
            exact e3.symm.trans ((Commit_faults c2 _).trans (f2.trans f1))

theorem Create_healthy (s : TokenStore) (j : Codec) (id : UUIDString) (c : Etcd) (info : Token)
    (hh : c.healthy) : (s.Create j id c info).2.healthy := by
  intro n
  rw [Create_faults]
  exact hh n

/-- In stores that answer every call, a lookup by code depends only on what
the wrapped key holds. -/
theorem GetByCode_congr (s : TokenStore) (j : Codec) (c c' : Etcd) (x : String)
    (hh : c.healthy) (hh' : c'.healthy) (h : ∀ y, c'.kvs (s.wrapperKey y) = c.kvs (s.wrapperKey y)) :
    (s.GetByCode j c' x).1 = (s.GetByCode j c x).1 := by
  simp [TokenStore.GetByCode, getToken_healthy s j c x hh, getToken_healthy s j c' x hh', h]

/-- In stores that answer every call, a lookup through an index key depends
only on what the wrapped keys of the instance hold. -/
theorem GetByAccess_congr (s : TokenStore) (j : Codec) (c c' : Etcd) (x : String)
    (hh : c.healthy) (hh' : c'.healthy) (h : ∀ y, c'.kvs (s.wrapperKey y) = c.kvs (s.wrapperKey y)) :
    (s.GetByAccess j c' x).1 = (s.GetByAccess j c x).1 := by
  have g := getToken_healthy s j c.tick
  have g' := getToken_healthy s j c'.tick
  have hk : ∀ y, c'.tick.kvs (s.wrapperKey y) = c.tick.kvs (s.wrapperKey y) := h
  simp only [TokenStore.GetByAccess, getBasicID_healthy s c x hh, getBasicID_healthy s c' x hh', h]
  cases c.kvs (s.wrapperKey x) with
  | none => simp [TokenStore.parseBasicID]
  | some kv =>
    by_cases hv : kv.Value = ""
    · simp [TokenStore.parseBasicID, hv]
    · simp only [TokenStore.parseBasicID, Option.toList, hv, if_false]
      rw [g _ (tick_healthy hh), g' _ (tick_healthy hh'), hk]

/-- C5 (the code at the failing input). For a record with access validity
100s and refresh validity 10s, created at the refresh token's creation time,
the lease on the access key is granted with the integer 100000000000, the
nanosecond count of the access validity; the refresh key's lease gets the
same. The specification's value is the 10 seconds that remain of the refresh
validity. -/
theorem access_lease_not_clamped :
    ((NewEtcdStoreWithCli []).Create (blobCodec clampToken) sampleID emptyStore clampToken).1
      = .ok () ∧
    ((NewEtcdStoreWithCli []).Create (blobCodec clampToken) sampleID emptyStore
      clampToken).2.ttlAt ((NewEtcdStoreWithCli []).wrapperKey "A") = some 100000000000 ∧
    ((NewEtcdStoreWithCli []).Create (blobCodec clampToken) sampleID emptyStore
      clampToken).2.ttlAt ((NewEtcdStoreWithCli []).wrapperKey "R") = some 100000000000 ∧
    accessLeaseSpec clampToken.AccessExpiresIn clampToken.RefreshCreateAt
      clampToken.RefreshExpiresIn 0 = 10 * Second ∧
    accessLeaseSpec clampToken.AccessExpiresIn clampToken.RefreshCreateAt
      clampToken.RefreshExpiresIn 0 / Second = 10 := by
  refine ⟨rfl, by decide, by decide, by decide, by decide⟩

/-- C6 (the code at the failing input). For the code of the test, valid for 5
seconds, the lease on the code key is granted with the integer 5000000000,
the nanosecond count of the validity, where the validity in seconds is 5. -/
theorem code_lease_in_nanoseconds :
    ((NewEtcdStoreWithCli ["test:"]).Create (blobCodec codeToken) sampleID emptyStore
      codeToken).2.ttlAt ((NewEtcdStoreWithCli ["test:"]).wrapperKey "11_11_11")
      = some 5000000000 ∧
    codeLeaseSpec codeToken.CodeExpiresIn = 5 := by
  refine ⟨by decide, by decide⟩

/-- C8 (the code at the failing input). In the code branch, when the lease is
granted and the `Put` that follows fails, `Create` still returns no error,
and the code key is not in the store. -/
theorem create_swallows_put_error :
    (((emptyStoreFailingAt 1 (.store 7)).Grant codeToken.CodeExpiresIn).2.Put
      ((NewEtcdStoreWithCli ["test:"]).wrapperKey "11_11_11") "blob" (some 1)).1
      = .error (.store 7) ∧
    ((NewEtcdStoreWithCli ["test:"]).Create (blobCodec codeToken) sampleID
      (emptyStoreFailingAt 1 (.store 7)) codeToken).1 = .ok () ∧
    ((NewEtcdStoreWithCli ["test:"]).Create (blobCodec codeToken) sampleID
      (emptyStoreFailingAt 1 (.store 7)) codeToken).2.kvs
      ((NewEtcdStoreWithCli ["test:"]).wrapperKey "11_11_11") = none := by
  refine ⟨rfl, rfl, by decide⟩

/-- C9 (counterexample). The record of the access token test has an access
token only. After `Create` and the one-call sequence `RemoveByAccess` of its
access token, both of which succeed, the access key is not in the store, the
refresh key of the record is not in the store, and the identifier's key still
holds the record, with no lease. -/
theorem access_only_record_left_behind :
    ((NewEtcdStoreWithCli []).Create (blobCodec accessToken) sampleID emptyStore accessToken).1
      = .ok () ∧
    ((NewEtcdStoreWithCli []).RemoveByAccess (blobCodec accessToken)
      ((NewEtcdStoreWithCli []).Create (blobCodec accessToken) sampleID emptyStore
        accessToken).2 "1_1_1").1 = .ok () ∧
    ((NewEtcdStoreWithCli []).removeCalls (blobCodec accessToken)
      ((NewEtcdStoreWithCli []).Create (blobCodec accessToken) sampleID emptyStore
        accessToken).2 [.byAccess "1_1_1"]).kvs
        ((NewEtcdStoreWithCli []).wrapperKey accessToken.Access) = none ∧
    ((NewEtcdStoreWithCli []).removeCalls (blobCodec accessToken)
      ((NewEtcdStoreWithCli []).Create (blobCodec accessToken) sampleID emptyStore
        accessToken).2 [.byAccess "1_1_1"]).kvs
        ((NewEtcdStoreWithCli []).wrapperKey accessToken.Refresh) = none ∧
    ((NewEtcdStoreWithCli []).removeCalls (blobCodec accessToken)
      ((NewEtcdStoreWithCli []).Create (blobCodec accessToken) sampleID emptyStore
        accessToken).2 [.byAccess "1_1_1"]).kvs
        ((NewEtcdStoreWithCli []).wrapperKey sampleID.text) = some ⟨"blob", none⟩ := by
  refine ⟨rfl, rfl, by decide, by decide, by decide⟩

/-- C7 (counterexample). The instance without a namespace and the instance
with the namespace `test:` have different prefixes, yet the key
`test:11_11_11` of the first is the key `11_11_11` of the second: the record
created through the second is returned by `GetByCode` of the first and is
deleted by its `RemoveByCode`. -/
theorem namespaces_overlap :
    (NewEtcdStoreWithCli []).ns ≠ (NewEtcdStoreWithCli ["test:"]).ns ∧
    (NewEtcdStoreWithCli []).wrapperKey "test:11_11_11"
      = (NewEtcdStoreWithCli ["test:"]).wrapperKey "11_11_11" ∧
    ((NewEtcdStoreWithCli []).GetByCode (blobCodec codeToken)
      ((NewEtcdStoreWithCli ["test:"]).Create (blobCodec codeToken) sampleID emptyStore
        codeToken).2 "test:11_11_11").1 = .ok (some codeToken) ∧
    ((NewEtcdStoreWithCli ["test:"]).Create (blobCodec codeToken) sampleID emptyStore
        codeToken).2.valueAt ((NewEtcdStoreWithCli ["test:"]).wrapperKey "11_11_11")
      = some "blob" ∧
    ((NewEtcdStoreWithCli []).RemoveByCode
      ((NewEtcdStoreWithCli ["test:"]).Create (blobCodec codeToken) sampleID emptyStore
        codeToken).2 "test:11_11_11").2.valueAt
        ((NewEtcdStoreWithCli ["test:"]).wrapperKey "11_11_11") = none := by
  refine ⟨by decide, by decide, rfl, by decide, by decide⟩

/-- C7 (amended). For two instances of which neither namespace is the other
followed by some string (the empty one included), the wrapped keys of the one
differ from the wrapped keys of the other, for all logical keys. So, in a
store that answers every call, the lookups of the second instance answer after
a `Create` through the first as they did before it, and, whatever the store
answers, the removals of the second instance leave the keys of the first as
they were. -/
theorem namespace_isolation (s1 s2 : TokenStore)
    (h12 : ∀ x, s1.ns ≠ s2.wrapperKey x) (h21 : ∀ x, s2.ns ≠ s1.wrapperKey x) :
    (∀ k1 k2, s1.wrapperKey k1 ≠ s2.wrapperKey k2) ∧
    (∀ (j : Codec) (id : UUIDString) (c : Etcd) (info : Token) (x : String), c.healthy →
      (s2.GetByCode j (s1.Create j id c info).2 x).1 = (s2.GetByCode j c x).1 ∧
      (s2.GetByAccess j (s1.Create j id c info).2 x).1 = (s2.GetByAccess j c x).1 ∧
      (s2.GetByRefresh j (s1.Create j id c info).2 x).1 = (s2.GetByRefresh j c x).1) ∧
    (∀ (j : Codec) (c : Etcd) (x k : String),
      (s2.RemoveByCode c x).2.kvs (s1.wrapperKey k) = c.kvs (s1.wrapperKey k) ∧
      (s2.RemoveByAccess j c x).2.kvs (s1.wrapperKey k) = c.kvs (s1.wrapperKey k) ∧
      (s2.RemoveByRefresh j c x).2.kvs (s1.wrapperKey k) = c.kvs (s1.wrapperKey k)) := by
  have hkeys : ∀ k1 k2, s1.wrapperKey k1 ≠ s2.wrapperKey k2 := by
    intro k1 k2 h
    have hd := congrArg String.data h
    simp only [TokenStore.wrapperKey, String.data_append] at hd
    rcases List.append_eq_append_iff.mp hd with ⟨a, ha, -⟩ | ⟨a, ha, -⟩
    · exact h21 ⟨a⟩ (String.ext (by simpa [TokenStore.wrapperKey, String.data_append] using ha))
    · exact h12 ⟨a⟩ (String.ext (by simpa [TokenStore.wrapperKey, String.data_append] using ha))
  refine ⟨hkeys, ?_, ?_⟩
  · intro j id c info x hh
    have hh' := Create_healthy s1 j id c info hh
    have hk : ∀ y, (s1.Create j id c info).2.kvs (s2.wrapperKey y) = c.kvs (s2.wrapperKey y) :=
      fun y => Create_kvs_other s1 j id c info _ (fun z => (hkeys z y).symm)
    exact ⟨GetByCode_congr s2 j c _ x hh hh' hk, GetByAccess_congr s2 j c _ x hh hh' hk,
      GetByAccess_congr s2 j c _ x hh hh' hk⟩
  · intro j c x k
    exact ⟨remove_kvs_other s2 c x _ (fun z => hkeys k z),
      removeToken_kvs_other s2 j c x false _ (fun z => hkeys k z),
      removeToken_kvs_other s2 j c x true _ (fun z => hkeys k z)⟩

theorem namespace_isolation_witness :
    (NewEtcdStoreWithCli ["a:"]).wrapperKey "11_11_11"
      ≠ (NewEtcdStoreWithCli ["b:"]).wrapperKey "11_11_11" ∧
    ((NewEtcdStoreWithCli ["b:"]).GetByCode (blobCodec codeToken)
      ((NewEtcdStoreWithCli ["a:"]).Create (blobCodec codeToken) sampleID emptyStore
        codeToken).2 "11_11_11").1
      = ((NewEtcdStoreWithCli ["b:"]).GetByCode (blobCodec codeToken) emptyStore "11_11_11").1 :=
  have h := namespace_isolation (NewEtcdStoreWithCli ["a:"]) (NewEtcdStoreWithCli ["b:"])
    (by
      intro x hx
      have hd := congrArg String.data hx
      simp [NewEtcdStoreWithCli, TokenStore.wrapperKey, String.data_append] at hd)
    (by
      intro x hx
      have hd := congrArg String.data hx
      simp [NewEtcdStoreWithCli, TokenStore.wrapperKey, String.data_append] at hd)
  ⟨h.1 _ _, (h.2.1 (blobCodec codeToken) sampleID emptyStore codeToken "11_11_11"
    emptyStore_healthy).1⟩

/-! ## Further facts about `Create` -/

/-- In the code branch the integer handed to `Grant` for the code key's lease
is the validity itself, a count of nanoseconds. -/
theorem Create_code_ttl (s : TokenStore) (j : Codec) (id : UUIDString) (c : Etcd)
    (info : Token) (jv : String) (hh : c.healthy) (hcode : info.Code ≠ "")
    (httl : 0 < info.CodeExpiresIn) (henc : j.encode info = .ok jv) :
    (s.Create j id c info).2.ttlAt (s.wrapperKey info.Code) = some info.CodeExpiresIn := by
  rw [Create_code_healthy s j id c info jv hh hcode httl henc]
  simp [Etcd.ttlAt]

/-- In the access/refresh branch the integer handed to `Grant` for the access
key's lease is the access validity, whatever the refresh fields say. -/
theorem Create_access_ttl (s : TokenStore) (j : Codec) (id : UUIDString) (c : Etcd)
    (info : Token) (jv : String) (hh : c.healthy) (hcode : info.Code = "")
    (httl : 0 < info.AccessExpiresIn) (henc : j.encode info = .ok jv)
    (hfA : id.text ≠ info.Access) :
    (s.Create j id c info).2.ttlAt (s.wrapperKey info.Access) = some info.AccessExpiresIn := by
  rw [Create_access_healthy s j id c info jv hh hcode httl henc]
  simp [Etcd.ttlAt, createdKvs_access s c info id.text jv hfA, Function.update_apply]

/-- In the code branch a failure of the `Put` does not reach the caller. -/
theorem Create_code_put_fails (s : TokenStore) (j : Codec) (id : UUIDString) (c : Etcd)
    (info : Token) (jv : String) (e : Err) (hcode : info.Code ≠ "")
    (httl : 0 < info.CodeExpiresIn) (henc : j.encode info = .ok jv)
    (h0 : c.faults c.calls = none) (h1 : c.faults (c.calls + 1) = some e) :
    (s.Create j id c info).1 = .ok () ∧ (s.Create j id c info).2.kvs = c.kvs := by
  simp [TokenStore.Create, henc, hcode, Etcd.Grant, Etcd.Put, Etcd.fault, Etcd.tick, h0, h1,
    not_le.mpr httl]

/-- In the access/refresh branch a failure of any store call reaches the
caller: when `Create` returns no error, no call failed. -/
theorem Create_access_propagates (s : TokenStore) (j : Codec) (id : UUIDString) (c : Etcd)
    (info : Token) (hcode : info.Code = "") (hok : (s.Create j id c info).1 = .ok ()) :
    c.faults c.calls = none ∧ c.faults (c.calls + 1) = none ∧ c.faults (c.calls + 2) = none := by
  unfold TokenStore.Create at hok
  cases henc : j.encode info with
  | error e => simp [henc] at hok
  | ok jv =>
    by_cases httl : info.AccessExpiresIn ≤ 0 <;>
    cases h0 : c.faults c.calls <;> cases h1 : c.faults (c.calls + 1) <;>
      cases h2 : c.faults (c.calls + 2) <;>
      simp [henc, hcode, Etcd.Grant, Etcd.Commit, Etcd.fault, Etcd.tick, h0, h1, h2, httl] at hok ⊢

/-- In a store that answers every call, `removeToken` leaves a store that
answers every call, with the key space `removedKvs` describes. -/
theorem removeToken_kvs_healthy (s : TokenStore) (j : Codec) (c : Etcd) (t : String) (b : Bool)
    (hh : c.healthy) :
    (s.removeToken j c t b).2.healthy ∧
      (s.removeToken j c t b).2.kvs = removedKvs s j c.kvs t b := by
  have hf : ∀ n, c.faults n = none := hh
  unfold removedKvs
  cases h1 : c.kvs (s.wrapperKey t) with
  | none =>
    simp [TokenStore.removeToken, TokenStore.getBasicID, TokenStore.parseBasicID, Etcd.Get,
      Etcd.fault, Etcd.tick, hf, h1, Etcd.healthy]
  | some kv =>
    by_cases hv : kv.Value = ""
    · simp [TokenStore.removeToken, TokenStore.getBasicID, TokenStore.parseBasicID, Etcd.Get,
        Etcd.fault, Etcd.tick, hf, h1, hv, Etcd.healthy]
    · cases h2 : Function.update c.kvs (s.wrapperKey t) none (s.wrapperKey kv.Value) with
      | none =>
        simp [TokenStore.removeToken, TokenStore.getBasicID, TokenStore.parseBasicID, Etcd.Get,
          TokenStore.remove, Etcd.Delete, TokenStore.getToken, TokenStore.parseToken,
          Etcd.fault, Etcd.tick, hf, h1, hv, h2, Etcd.healthy]
      | some kv2 =>
        cases h3 : j.decode kv2.Value with
        | error e =>
          simp [TokenStore.removeToken, TokenStore.getBasicID, TokenStore.parseBasicID, Etcd.Get,
            TokenStore.remove, Etcd.Delete, TokenStore.getToken, TokenStore.parseToken,
            Etcd.fault, Etcd.tick, hf, h1, hv, h2, h3, Etcd.healthy]
        | ok tok =>
          by_cases h4 : (if b = true then tok.Access else tok.Refresh) = ""
          · simp [TokenStore.removeToken, TokenStore.getBasicID, TokenStore.parseBasicID,
              Etcd.Get, TokenStore.remove, Etcd.Delete, TokenStore.getToken,
              TokenStore.parseToken, Etcd.fault, Etcd.tick, hf, h1, hv, h2, h3, h4, Etcd.healthy]
          · cases h5 : Function.update c.kvs (s.wrapperKey t) none
                (s.wrapperKey (if b = true then tok.Access else tok.Refresh)) with
            | none =>
              simp [TokenStore.removeToken, TokenStore.getBasicID, TokenStore.parseBasicID,
                Etcd.Get, TokenStore.remove, Etcd.Delete, TokenStore.getToken,
                TokenStore.parseToken, Etcd.fault, Etcd.tick, hf, h1, hv, h2, h3, h4, h5,
                Etcd.healthy, GetResponse.Count]
            | some kv3 =>
              simp [TokenStore.removeToken, TokenStore.getBasicID, TokenStore.parseBasicID,
                Etcd.Get, TokenStore.remove, Etcd.Delete, TokenStore.getToken,
                TokenStore.parseToken, Etcd.fault, Etcd.tick, hf, h1, hv, h2, h3, h4, h5,
                Etcd.healthy, GetResponse.Count]

/-- Deleting keys keeps the first three parts of `RecordInOrder`. -/
theorem RecordInOrder.of_deletions {s : TokenStore} {info : Token} {bid jv : String}
    {kvs kvs' : String → Option KeyValue} (h : RecordInOrder s info bid jv kvs)
    (hdel : ∀ k, kvs' k = none ∨ kvs' k = kvs k)
    (hblob : kvs' (s.wrapperKey bid) ≠ none →
      kvs' (s.wrapperKey info.Access) ≠ none ∨ kvs' (s.wrapperKey info.Refresh) ≠ none) :
    RecordInOrder s info bid jv kvs' := by
  obtain ⟨hA, hR, hB, -⟩ := h
  refine ⟨?_, ?_, ?_, hblob⟩
  · intro kv hk
    rcases hdel (s.wrapperKey info.Access) with h0 | h0
    · rw [h0] at hk; cases hk
    · exact hA kv (h0 ▸ hk)
  · intro kv hk
    rcases hdel (s.wrapperKey info.Refresh) with h0 | h0
    · rw [h0] at hk; cases hk
    · exact hR kv (h0 ▸ hk)
  · intro kv hk
    rcases hdel (s.wrapperKey bid) with h0 | h0
    · rw [h0] at hk; cases hk
    · exact hB kv (h0 ▸ hk)

theorem update_none_del (kvs : String → Option KeyValue) (k : String) :
    ∀ k', Function.update kvs k none k' = none ∨ Function.update kvs k none k' = kvs k' := by
  intro k'
  by_cases h : k' = k
  · exact Or.inl (by rw [h, Function.update_same])
  · exact Or.inr (by rw [Function.update_noteq h])

theorem update_none_del2 (kvs : String → Option KeyValue) (k1 k2 : String) :
    ∀ k', Function.update (Function.update kvs k1 none) k2 none k' = none ∨
      Function.update (Function.update kvs k1 none) k2 none k' = kvs k' := by
  intro k'
  by_cases h2 : k' = k2
  · exact Or.inl (by rw [h2, Function.update_same])
  · by_cases h1 : k' = k1
    · exact Or.inl (by rw [Function.update_noteq h2, h1, Function.update_same])
    · exact Or.inr (by rw [Function.update_noteq h2, Function.update_noteq h1])

/-- Deletions that leave the access key and the refresh key alone keep the
record in order. -/
theorem RecordInOrder.of_unaffected {s : TokenStore} {info : Token} {bid jv : String}
    {kvs kvs' : String → Option KeyValue} (h : RecordInOrder s info bid jv kvs)
    (hdel : ∀ k, kvs' k = none ∨ kvs' k = kvs k)
    (hAeq : kvs' (s.wrapperKey info.Access) = kvs (s.wrapperKey info.Access))
    (hReq : kvs' (s.wrapperKey info.Refresh) = kvs (s.wrapperKey info.Refresh)) :
    RecordInOrder s info bid jv kvs' := by
  refine h.of_deletions hdel ?_
  intro hb
  have hb0 : kvs (s.wrapperKey bid) ≠ none := by
    rcases hdel (s.wrapperKey bid) with h0 | h0
    · exact absurd h0 hb
    · exact h0 ▸ hb
  rw [hAeq, hReq]
  exact h.2.2.2 hb0

/-- Deletions after which the identifier's key is gone keep the record in
order. -/
theorem RecordInOrder.of_blob_gone {s : TokenStore} {info : Token} {bid jv : String}
    {kvs kvs' : String → Option KeyValue} (h : RecordInOrder s info bid jv kvs)
    (hdel : ∀ k, kvs' k = none ∨ kvs' k = kvs k) (hgone : kvs' (s.wrapperKey bid) = none) :
    RecordInOrder s info bid jv kvs' :=
  h.of_deletions hdel (fun hb => absurd hgone hb)

/-- Removing through a key that holds the record's identifier, as its own
index keys do, keeps the record in order. -/
theorem removedKvs_inOrder_own (s : TokenStore) (j : Codec) (info : Token) (bid jv : String)
    (kvs : String → Option KeyValue) (t : String) (b : Bool)
    (h : RecordInOrder s info bid jv kvs) (hdec : j.decode jv = .ok info)
    (hA : info.Access ≠ "") (hR : info.Refresh ≠ "") (hbt : bid ≠ t)
    (hidx : ∀ kv, kvs (s.wrapperKey t) = some kv → kv.Value = bid) :
    RecordInOrder s info bid jv (removedKvs s j kvs t b) := by
  have hwB : s.wrapperKey bid ≠ s.wrapperKey t := by simpa [wrapperKey_inj] using hbt
  unfold removedKvs
  cases h1 : kvs (s.wrapperKey t) with
  | none => exact h
  | some kv =>
    have hkv : kv.Value = bid := hidx kv h1
    dsimp only
    by_cases hv : kv.Value = ""
    · rw [if_pos hv]; exact h
    · rw [if_neg hv, hkv]
      have hB' : Function.update kvs (s.wrapperKey t) none (s.wrapperKey bid)
          = kvs (s.wrapperKey bid) := Function.update_noteq hwB _ _
      rw [hB']
      cases h2 : kvs (s.wrapperKey bid) with
      | none =>
        dsimp only
        exact h.of_blob_gone (update_none_del _ _) (by rw [hB', h2])
      | some kv2 =>
        dsimp only
        rw [h.2.2.1 kv2 h2, hdec]
        dsimp only
        have hcheck : (if b = true then info.Access else info.Refresh) ≠ "" := by
          cases b <;> simpa
        rw [if_neg hcheck]
        cases h5 : Function.update kvs (s.wrapperKey t) none
            (s.wrapperKey (if b = true then info.Access else info.Refresh)) with
        | none =>
          dsimp only
          exact h.of_blob_gone (update_none_del2 _ _ _) (Function.update_same _ _ _)
        | some kv3 =>
          dsimp only
          refine h.of_deletions (update_none_del _ _) (fun _ => ?_)
          have hne : Function.update kvs (s.wrapperKey t) none
              (s.wrapperKey (if b = true then info.Access else info.Refresh)) ≠ none := by
            rw [h5]; exact Option.some_ne_none _
          cases b with
          | true => exact Or.inl (by simpa using hne)
          | false => exact Or.inr (by simpa using hne)

/-- Removing through a key other than the record's index keys keeps the record
in order, when the codec does not decode the identifier. -/
theorem removedKvs_inOrder_other (s : TokenStore) (j : Codec) (info : Token) (bid jv : String)
    (kvs : String → Option KeyValue) (t : String) (b : Bool)
    (h : RecordInOrder s info bid jv kvs) (htA : t ≠ info.Access) (htR : t ≠ info.Refresh)
    (hnd : ∀ tok, j.decode bid ≠ .ok tok) :
    RecordInOrder s info bid jv (removedKvs s j kvs t b) := by
  have hwA : s.wrapperKey info.Access ≠ s.wrapperKey t := by
    simpa [wrapperKey_inj] using (Ne.symm htA)
  have hwR : s.wrapperKey info.Refresh ≠ s.wrapperKey t := by
    simpa [wrapperKey_inj] using (Ne.symm htR)
  have hone : RecordInOrder s info bid jv (Function.update kvs (s.wrapperKey t) none) :=
    h.of_unaffected (update_none_del _ _) (Function.update_noteq hwA _ _)
      (Function.update_noteq hwR _ _)
  unfold removedKvs
  cases h1 : kvs (s.wrapperKey t) with
  | none => exact h
  | some kv =>
    dsimp only
    by_cases hv : kv.Value = ""
    · rw [if_pos hv]; exact h
    · rw [if_neg hv]
      cases h2 : Function.update kvs (s.wrapperKey t) none (s.wrapperKey kv.Value) with
      | none => exact hone
      | some kv2 =>
        dsimp only
        cases h3 : j.decode kv2.Value with
        | error e => exact hone
        | ok tok =>
          dsimp only
          by_cases h4 : (if b = true then tok.Access else tok.Refresh) = ""
          · rw [if_pos h4]; exact hone
          · rw [if_neg h4]
            cases h5 : Function.update kvs (s.wrapperKey t) none
                (s.wrapperKey (if b = true then tok.Access else tok.Refresh)) with
            | some kv3 => exact hone
            | none =>
              dsimp only
              have hvA : s.wrapperKey info.Access ≠ s.wrapperKey kv.Value := by
                intro e
                rw [← e, Function.update_noteq hwA] at h2
                exact hnd tok (h.1 kv2 h2 ▸ h3)
              have hvR : s.wrapperKey info.Refresh ≠ s.wrapperKey kv.Value := by
                intro e
                rw [← e, Function.update_noteq hwR] at h2
                exact hnd tok (h.2.1 kv2 h2 ▸ h3)
              refine h.of_unaffected (update_none_del2 _ _ _) ?_ ?_
              · rw [Function.update_noteq hvA, Function.update_noteq hwA]
              · rw [Function.update_noteq hvR, Function.update_noteq hwR]

/-- One removal keeps the record in order: through one of the record's own
tokens always, through any other token when the codec does not decode the
identifier. -/
theorem removedKvs_inOrder (s : TokenStore) (j : Codec) (info : Token) (bid jv : String)
    (kvs : String → Option KeyValue) (t : String) (b : Bool)
    (h : RecordInOrder s info bid jv kvs) (hdec : j.decode jv = .ok info)
    (hA : info.Access ≠ "") (hR : info.Refresh ≠ "") (hbA : bid ≠ info.Access)
    (hbR : bid ≠ info.Refresh)
    (hstep : (t = info.Access ∨ t = info.Refresh) ∨ ∀ tok, j.decode bid ≠ .ok tok) :
    RecordInOrder s info bid jv (removedKvs s j kvs t b) := by
  by_cases htA : t = info.Access
  · exact removedKvs_inOrder_own s j info bid jv kvs t b h hdec hA hR (htA ▸ hbA)
      (fun kv hk => h.1 kv (htA ▸ hk))
  · by_cases htR : t = info.Refresh
    · exact removedKvs_inOrder_own s j info bid jv kvs t b h hdec hA hR (htR ▸ hbR)
        (fun kv hk => h.2.1 kv (htR ▸ hk))
    · rcases hstep with (e | e) | hnd
      · exact absurd e htA
      · exact absurd e htR
      · exact removedKvs_inOrder_other s j info bid jv kvs t b h htA htR hnd

/-- A sequence of removals, in a store that answers every call, keeps the
record in order. -/
theorem removeCalls_inOrder (s : TokenStore) (j : Codec) (info : Token) (bid jv : String)
    (hdec : j.decode jv = .ok info) (hA : info.Access ≠ "") (hR : info.Refresh ≠ "")
    (hbA : bid ≠ info.Access) (hbR : bid ≠ info.Refresh) (calls : List Removal)
    (hcalls : (∀ r ∈ calls, r.token = info.Access ∨ r.token = info.Refresh) ∨
      ∀ tok, j.decode bid ≠ .ok tok)
    (c : Etcd) (hh : c.healthy) (h : RecordInOrder s info bid jv c.kvs) :
    RecordInOrder s info bid jv (s.removeCalls j c calls).kvs := by
  induction calls generalizing c with
  | nil => exact h
  | cons r rs ih =>
    have hrs : (∀ r ∈ rs, r.token = info.Access ∨ r.token = info.Refresh) ∨
        ∀ tok, j.decode bid ≠ .ok tok :=
      hcalls.imp (fun hall r hr => hall r (List.mem_cons_of_mem _ hr)) id
    have hr : (r.token = info.Access ∨ r.token = info.Refresh) ∨
        ∀ tok, j.decode bid ≠ .ok tok :=
      hcalls.imp (fun hall => hall r (List.mem_cons_self _ _)) id
    rw [TokenStore.removeCalls]
    cases r with
    | byAccess a =>
      obtain ⟨hh', hk⟩ := removeToken_kvs_healthy s j c a false hh
      refine ih hrs _ hh' ?_
      show RecordInOrder s info bid jv (s.removeToken j c a false).2.kvs
      rw [hk]
      exact removedKvs_inOrder s j info bid jv c.kvs a false h hdec hA hR hbA hbR hr
    | byRefresh a =>
      obtain ⟨hh', hk⟩ := removeToken_kvs_healthy s j c a true hh
      refine ih hrs _ hh' ?_
      show RecordInOrder s info bid jv (s.removeToken j c a true).2.kvs
      rw [hk]
      exact removedKvs_inOrder s j info bid jv c.kvs a true h hdec hA hR hbA hbR hr

/-- What the transaction of `Create` writes is a record in order. -/
theorem createdKvs_inOrder (s : TokenStore) (c : Etcd) (info : Token) (bid jv : String)
    (hR : info.Refresh ≠ "") (hbA : bid ≠ info.Access) (hbR : bid ≠ info.Refresh) :
    RecordInOrder s info bid jv (createdKvs s c info bid jv) := by
  have hAk := createdKvs_access s c info bid jv hbA
  obtain ⟨l, hRk⟩ := createdKvs_refresh s c info bid jv hR hbR
  have hBk := createdKvs_blob s c info bid jv
  refine ⟨?_, ?_, ?_, ?_⟩
  · intro kv hk; rw [hAk] at hk; cases hk; rfl
  · intro kv hk; rw [hRk] at hk; cases hk; rfl
  · intro kv hk; rw [hBk] at hk; cases hk; rfl
  · intro _; left; rw [hAk]; exact Option.some_ne_none _

/-- C9 (amended). A record with an empty code and both a non-empty access
token and a non-empty refresh token is created in a store that answers every
call. After every sequence of `RemoveByAccess` / `RemoveByRefresh` calls, each
on one of the record's two tokens (or on any token at all, when the codec does
not decode the identifier's text as a record), if neither the access key nor
the refresh key of the record is in the store, then the identifier's key is
not in the store either. -/
theorem blob_reclaimed_when_unreferenced (s : TokenStore) (j : Codec) (id : UUIDString)
    (c : Etcd) (info : Token) (calls : List Removal) (hcode : info.Code = "")
    (hA : info.Access ≠ "") (hR : info.Refresh ≠ "") (hfA : id.text ≠ info.Access)
    (hfR : id.text ≠ info.Refresh) (hh : c.healthy) (httl : 0 < info.AccessExpiresIn)
    (hj : j.RoundTrips info)
    (hcalls : (∀ r ∈ calls, r.token = info.Access ∨ r.token = info.Refresh) ∨
      ∀ tok, j.decode id.text ≠ .ok tok) :
    (s.Create j id c info).1 = .ok () ∧
    ((s.removeCalls j (s.Create j id c info).2 calls).kvs (s.wrapperKey info.Access) = none →
     (s.removeCalls j (s.Create j id c info).2 calls).kvs (s.wrapperKey info.Refresh) = none →
     (s.removeCalls j (s.Create j id c info).2 calls).kvs (s.wrapperKey id.text) = none) := by
  obtain ⟨jv, henc, hdec⟩ := hj
  have hcr := Create_access_healthy s j id c info jv hh hcode httl henc
  have hh1 : (s.Create j id c info).2.healthy := Create_healthy s j id c info hh
  have hk1 : (s.Create j id c info).2.kvs = createdKvs s c info id.text jv := by rw [hcr]
  have hin := removeCalls_inOrder s j info id.text jv hdec hA hR hfA hfR calls hcalls
    (s.Create j id c info).2 hh1 (hk1 ▸ createdKvs_inOrder s c info id.text jv hR hfA hfR)
  refine ⟨by rw [hcr], ?_⟩
  intro h1 h2
  by_contra hb
  rcases hin.2.2.2 hb with h | h
  · exact h h1
  · exact h h2

theorem blob_reclaimed_when_unreferenced_witness :
    ((NewEtcdStoreWithCli ["test:"]).removeCalls (blobCodec refreshToken)
      ((NewEtcdStoreWithCli ["test:"]).Create (blobCodec refreshToken) sampleID emptyStore
        refreshToken).2 [.byRefresh "1_2_2", .byAccess "1_2_1"]).kvs
      ((NewEtcdStoreWithCli ["test:"]).wrapperKey sampleID.text) = none :=
  (blob_reclaimed_when_unreferenced (NewEtcdStoreWithCli ["test:"]) (blobCodec refreshToken)
    sampleID emptyStore refreshToken [.byRefresh "1_2_2", .byAccess "1_2_1"]
    (by decide) (by decide) (by decide) (by decide) (by decide) emptyStore_healthy (by decide)
    (blobCodec_roundTrips refreshToken) (Or.inl (by decide))).2 (by decide) (by decide)

/-- Why calls on other tokens need the condition on the codec: in a store
where a stray key holds the record's access token, with a codec that decodes
the identifier's text, `RemoveByRefresh` of the refresh token followed by
`RemoveByAccess` of the stray key deletes both index keys of the record and
leaves the identifier's key. -/
theorem stray_token_leaves_record :
    strayCodec.RoundTrips refreshToken ∧
    ((NewEtcdStoreWithCli []).removeCalls strayCodec
      ((NewEtcdStoreWithCli []).Create strayCodec sampleID strayStore refreshToken).2
      [.byRefresh "1_2_2", .byAccess "stray"]).kvs
        ((NewEtcdStoreWithCli []).wrapperKey refreshToken.Access) = none ∧
    ((NewEtcdStoreWithCli []).removeCalls strayCodec
      ((NewEtcdStoreWithCli []).Create strayCodec sampleID strayStore refreshToken).2
      [.byRefresh "1_2_2", .byAccess "stray"]).kvs
        ((NewEtcdStoreWithCli []).wrapperKey refreshToken.Refresh) = none ∧
    ((NewEtcdStoreWithCli []).removeCalls strayCodec
      ((NewEtcdStoreWithCli []).Create strayCodec sampleID strayStore refreshToken).2
      [.byRefresh "1_2_2", .byAccess "stray"]).kvs
        ((NewEtcdStoreWithCli []).wrapperKey sampleID.text) = some ⟨"blob", none⟩ := by
  refine ⟨⟨"blob", rfl, rfl⟩, by decide, by decide, by decide⟩

end EtcdStore
